import Mathlib

/-!
Verification of the Insertive snippet plugin (`src/main.js`) against its
natural-language specification.

Strings are modelled as `List Char` (named `Str`); JavaScript objects used as
string-keyed maps are modelled as association lists (`JMap`) recording
creation order, with `jkeys` reproducing the ECMAScript own-property
enumeration order (canonical array-index keys ascending first, then the
remaining string keys in creation order).
All definitions are translated from the JavaScript source; definitions whose
doc comment says otherwise model a sentence of the specification for
comparison (refinement) purposes.
-/

namespace Insertive

/-- Strings, modelled as lists of characters. -/
abbrev Str := List Char

/-- Shorthand to turn a Lean string literal into the `Str` model. -/
def str (s : String) : Str := s.data

/-! ## Key validator (`SnippetValidator.validateKey`, main.js lines 53-67) -/

/-- One character of the class `[a-zA-Z0-9_-]` of the validator regex. -/
def isKeyChar (c : Char) : Bool :=
  c.isAlpha || c.isDigit || decide (c = '_') || decide (c = '-')

/-- Whitespace as removed by JavaScript `String.prototype.trim`. -/
def isJsSpace (c : Char) : Bool :=
  decide (c = ' ') || decide (c = '\t') || decide (c = '\n') || decide (c = '\r') ||
  decide (c = '\x0b') || decide (c = '\x0c') || decide (c = '\u00A0') || decide (c = '\uFEFF')

/-- JavaScript `key.trim()`: strip leading and trailing whitespace. -/
def jsTrim (s : Str) : Str :=
  ((s.dropWhile isJsSpace).reverse.dropWhile isJsSpace).reverse

/-- JavaScript `key.includes(' ')`. -/
def hasSpace (k : Str) : Bool := k.any (fun c => decide (c = ' '))

/-- JavaScript `/^[a-zA-Z0-9_-]+$/.test(key)`. -/
def keyRegexTest (k : Str) : Bool := decide (k ≠ []) && k.all isKeyChar

/-- Result shape `{isValid, message}` returned by `validateKey`. -/
structure ValidationResult where
  isValid : Bool
  message : Str
deriving DecidableEq

/-- Message for an empty snippet key (main.js line 55). -/
def msgEmptyKey : Str := str ("Snippet key cannot be empty.")

/-- Message for a key containing spaces (main.js line 59). -/
def msgSpaceKey : Str := str ("Snippet key cannot contain spaces.")

/-- Message for disallowed characters (main.js line 63). -/
def msgInvalidChars : Str :=
  str ("Snippet key can only contain letters, numbers, hyphens, and underscores.")

/-- `SnippetValidator.validateKey` (main.js lines 53-67): the guard
`!key || key.trim() === ''`, then `key.includes(' ')`, then the regex test. -/
def validateKey (key : Str) : ValidationResult :=
  if key = [] ∨ jsTrim key = [] then ⟨false, msgEmptyKey⟩
  else if hasSpace key = true then ⟨false, msgSpaceKey⟩
  else if keyRegexTest key = false then ⟨false, msgInvalidChars⟩
  else ⟨true, []⟩

/-! ## Template engine (`SnippetProcessor`, main.js lines 73-142) -/

/-- Accumulating splitter for `selectedText.split('\n')`. -/
def splitNlAux (acc : Str) : Str → List Str
  | [] => [acc.reverse]
  | c :: r => if c = '\n' then acc.reverse :: splitNlAux [] r else splitNlAux (c :: acc) r

/-- JavaScript `s.split('\n')`. -/
def splitNl (s : Str) : List Str := splitNlAux [] s

/-- `selectedText.split('\n').map(trim).filter(nonempty)` (main.js lines 98-100). -/
def linesOf (selectedText : Str) : List Str :=
  ((splitNl selectedText).map jsTrim).filter (fun l => decide (l ≠ []))

/-- Scanner for the regex `/\{\d+\}/g`: left-to-right, non-overlapping matches
of a brace-delimited nonempty digit run.  `fuel` bounds the recursion and is
instantiated with the length of the scanned text, which suffices because every
step consumes at least one character. -/
def scanAux : Nat → Str → List Str
  | 0, _ => []
  | _ + 1, [] => []
  | f + 1, c :: rest =>
    if c = '\x7b' ∧ rest.takeWhile Char.isDigit ≠ [] ∧
        (rest.drop (rest.takeWhile Char.isDigit).length).head? = some '\x7d' then
      ('\x7b' :: rest.takeWhile Char.isDigit ++ ['\x7d']) ::
        scanAux f (rest.drop ((rest.takeWhile Char.isDigit).length + 1))
    else scanAux f rest

/-- `text.match(/\{\d+\}/g)` (main.js line 139), as a (possibly empty) list. -/
def rawMatches (t : Str) : List Str := scanAux t.length t

/-- `SnippetProcessor.hasPlaceholders` (main.js lines 129-131):
`/\{\d+\}/.test(text)`. -/
def hasPlaceholders (t : Str) : Bool := decide (rawMatches t ≠ [])

/-- `[...new Set(matches)]`: deduplication keeping first occurrences. -/
def dedupAux (seen : List Str) : List Str → List Str
  | [] => []
  | x :: r => if x ∈ seen then dedupAux seen r else x :: dedupAux (x :: seen) r

/-- `SnippetProcessor.extractPlaceholders` (main.js lines 138-141). -/
def extractPlaceholders (t : Str) : List Str := dedupAux [] (rawMatches t)

/-- `parseInt` on a digit string. -/
def digitsToNat (ds : Str) : Nat :=
  ds.foldl (fun n c => n * 10 + (c.toNat - '0'.toNat)) 0

/-- The literal token `'\x7b' + paramNum + '\x7d'` built for the replacement
regex (main.js line 117). -/
def tokenOf (paramNum : Nat) : Str := '\x7b' :: Nat.toDigits 10 paramNum ++ ['\x7d']

/-- JavaScript `Array.prototype.join(' ')`. -/
def joinSpace : List Str → Str
  | [] => []
  | l :: r => l ++ (if r = [] then [] else ' ' :: joinSpace r)

/-- The `replacement` computation of `processTemplate` (main.js lines 107-115):
the `if / else if` chain on `paramNum`, starting from `''`. -/
def computeReplacement (paramNum : Nat) (lines : List Str) : Str :=
  if paramNum = 1 then lines.headD []
  else if paramNum > 1 ∧ paramNum ≤ lines.length then lines.getD (paramNum - 1) []
  else if paramNum = 2 ∧ lines.length > 1 then joinSpace (lines.drop 1)
  else []

/-- Expansion of JavaScript replacement patterns in the second argument of
`String.prototype.replace`: `$$`, `$&`, `$` followed by a backquote, and `$`
followed by a quote are special; with no capture groups in the pattern every
other character (including `$` before anything else) is literal. -/
def expandDollar (before matched after : Str) : Str → Str
  | [] => []
  | c :: r =>
    if c = '$' then
      match r with
      | [] => ['$']
      | c2 :: r2 =>
        if c2 = '$' then '$' :: expandDollar before matched after r2
        else if c2 = '&' then matched ++ expandDollar before matched after r2
        else if c2 = '\x60' then before ++ expandDollar before matched after r2
        else if c2 = '\x27' then after ++ expandDollar before matched after r2
        else c :: c2 :: expandDollar before matched after r2
    else c :: expandDollar before matched after r

/-- Prefix test on character lists. -/
def isPre : Str → Str → Bool
  | [], _ => true
  | _ :: _, [] => false
  | c :: tr, d :: sr => decide (c = d) && isPre tr sr

/-- Scanner of `processedText.replace(new RegExp(tok, 'g'), rep)` for a literal
token `tok`: left-to-right, non-overlapping, each match replaced by the
`$`-expanded replacement.  `revBefore` is the reversed already-scanned part of
the original string (context for the expansion); `fuel` is instantiated with
the length of the scanned text. -/
def replAux (tok rep : Str) : Nat → Str → Str → Str
  | 0, _, s => s
  | _ + 1, _, [] => []
  | f + 1, revBefore, c :: rest =>
    if isPre tok (c :: rest) = true then
      expandDollar revBefore.reverse tok ((c :: rest).drop tok.length) rep ++
        replAux tok rep f (tok.reverse ++ revBefore) ((c :: rest).drop tok.length)
    else c :: replAux tok rep f (c :: revBefore) rest

/-- JavaScript `s.replace(new RegExp(tok, 'g'), rep)` for a literal token. -/
def jsReplace (s tok rep : Str) : Str := replAux tok rep s.length [] s

/-- One iteration of the `placeholders.forEach` body of `processTemplate`
(main.js lines 105-119): parse the digits of the placeholder, compute the
replacement, and globally replace the token in the accumulated text. -/
def applyPlaceholder (lines : List Str) (acc : Str) (ph : Str) : Str :=
  let paramNum := digitsToNat (ph.filter (fun c => decide (c ≠ '\x7b' ∧ c ≠ '\x7d')))
  jsReplace acc (tokenOf paramNum) (computeReplacement paramNum lines)

/-- `SnippetProcessor.processTemplate` (main.js lines 93-122). -/
def processTemplate (snippetText selectedText : Str) : Str :=
  if selectedText = [] ∨ hasPlaceholders snippetText = false then snippetText
  else (extractPlaceholders snippetText).foldl (applyPlaceholder (linesOf selectedText))
    snippetText

example : processTemplate (str ("Hello, {1}!")) (str ("John Doe")) =
    str ("Hello, John Doe!") := by decide

example : processTemplate (str ("- {1}\n- {2}")) (str ("one\ntwo")) =
    str ("- one\n- two") := by decide

/-! ## Snippet repository (plugin settings and handlers)

JavaScript objects used as string-keyed maps are modelled as association
lists recording property creation order: assigning an existing key updates
its value in place, assigning a fresh key records it last, and `delete`
removes the key.  Enumeration (`Object.keys`, `for..in`, spread) does not
follow creation order alone: ECMAScript's `OrdinaryOwnPropertyKeys` lists
canonical array-index keys (`"0"`, `"1"`, ..., up to `2^32 - 2`, no leading
zeros) first in ascending numeric order, and only then the remaining string
keys in creation order.  `jkeys` models that enumeration; copying an object
with spread therefore preserves both `jget` and `jkeys`, so the spread in
`handleSave` is modelled as reusing the list. -/

/-- A JavaScript object used as a string map, in property creation order. -/
abbrev JMap := List (Str × Str)

/-- Property read `m[k]`. -/
def jget : JMap → Str → Option Str
  | [], _ => none
  | (k', v) :: r, k => if k' = k then some v else jget r k

/-- Property write `m[k] = v`: in-place update if present, recorded last if
fresh (its enumeration position is decided by `jkeys`). -/
def jset : JMap → Str → Str → JMap
  | [], k, v => [(k, v)]
  | (k', v') :: r, k, v => if k' = k then (k', v) :: r else (k', v') :: jset r k v

/-- Property removal `delete m[k]`. -/
def jdel (m : JMap) (k : Str) : JMap := m.filter (fun p => decide (p.1 ≠ k))

/-- Whether a string is a canonical array-index key in ECMAScript: a
canonical decimal integer (no leading zero except `"0"` itself) below
`2^32 - 1`. -/
def isArrayIndexKey (k : Str) : Bool :=
  decide (k ≠ []) && k.all Char.isDigit &&
  (decide (k = ['0']) || decide (k.head? ≠ some '0')) &&
  decide (digitsToNat k < 4294967295)

/-- Insert a key into a list of array-index keys sorted by numeric value. -/
def insertByNum (k : Str) : List Str → List Str
  | [] => [k]
  | x :: r => if digitsToNat k ≤ digitsToNat x then k :: x :: r else x :: insertByNum k r

/-- Sort array-index keys by ascending numeric value. -/
def sortByNum : List Str → List Str
  | [] => []
  | x :: r => insertByNum x (sortByNum r)

/-- `Object.keys(m)`, in ECMAScript own-property enumeration order: canonical
array-index keys ascending numerically, then the other keys in creation
order. -/
def jkeys (m : JMap) : List Str :=
  sortByNum ((m.map Prod.fst).filter isArrayIndexKey) ++
    (m.map Prod.fst).filter (fun k => !(isArrayIndexKey k))

/-- JavaScript truthiness of a read property: present with a nonempty string. -/
def truthy : Option Str → Bool
  | none => false
  | some v => decide (v ≠ [])

/-- The plugin settings state: the three parallel maps of the persisted shape
`{snippets, icons, groups}` (main.js lines 24-37). -/
structure PluginSettings where
  snippets : JMap
  icons : JMap
  groups : JMap
deriving DecidableEq

/-- `CONSTANTS.DEFAULT_ICON` (main.js line 22). -/
def defaultIcon : Str := str ("stamp")

/-- `InsertiveSettingTab.addNewSnippet` (main.js lines 960-970): store the
text, the default icon and the empty group under the key. -/
def addNewSnippet (s : PluginSettings) (key value : Str) : PluginSettings :=
  { snippets := jset s.snippets key value
    icons := jset s.icons key defaultIcon
    groups := jset s.groups key [] }

/-- Outcome of `InsertiveSettingTab.handleAddSnippet`. -/
inductive AddResult where
  | missingInput
  | invalidKey (message : Str)
  | duplicatePending
  | added
deriving DecidableEq

/-- `InsertiveSettingTab.handleAddSnippet` (main.js lines 926-953): reject
missing input, then a validator-rejected key, then ask for confirmation on a
key whose stored text is truthy; otherwise add.  The state is returned
unchanged on every non-`added` outcome, as the code touches no state before
those returns. -/
def handleAddSnippet (s : PluginSettings) (key value : Str) :
    AddResult × PluginSettings :=
  if key = [] ∨ value = [] then (.missingInput, s)
  else if (validateKey key).isValid = false then
    (.invalidKey (validateKey key).message, s)
  else if truthy (jget s.snippets key) = true then (.duplicatePending, s)
  else (.added, addNewSnippet s key value)

/-- `InsertiveSettingTab.handleDeleteSnippet` (main.js lines 997-1010):
unconditionally delete the snippet text, but delete the icon and group
entries only when their stored values are truthy. -/
def handleDeleteSnippet (s : PluginSettings) (key : Str) : PluginSettings :=
  { snippets := jdel s.snippets key
    icons := if truthy (jget s.icons key) = true then jdel s.icons key else s.icons
    groups := if truthy (jget s.groups key) = true then jdel s.groups key else s.groups }

/-- Outcome of `EditSnippetModal.handleSave`. -/
inductive SaveResult where
  | missingInput
  | invalidKey (message : Str)
  | duplicateKey
  | saved
deriving DecidableEq

/-- `EditSnippetModal.handleSave` (main.js lines 570-614): reject missing
input; when the key changed, reject a validator-rejected or already-present
new key; then remove `originalKey` from all three maps of a copied settings
object and insert the new key with the edited text, icon and group. -/
def handleSave (s : PluginSettings) (originalKey key value icon group : Str) :
    SaveResult × PluginSettings :=
  if key = [] ∨ value = [] then (.missingInput, s)
  else if key ≠ originalKey ∧ (validateKey key).isValid = false then
    (.invalidKey (validateKey key).message, s)
  else if key ≠ originalKey ∧ truthy (jget s.snippets key) = true then
    (.duplicateKey, s)
  else
    (.saved,
      { snippets := jset (jdel s.snippets originalKey) key value
        icons := jset (jdel s.icons originalKey) key icon
        groups := jset (jdel s.groups originalKey) key group })

/-! ## Lemmas about the ordered-map model -/

theorem jset_append_of_none {m : JMap} {k : Str} (v : Str) (h : jget m k = none) :
    jset m k v = m ++ [(k, v)] := by
  induction m with
  | nil => rfl
  | cons p r ih =>
    obtain ⟨k', v'⟩ := p
    by_cases hk : k' = k
    · simp [jget, hk] at h
    · simp only [jget, if_neg hk] at h
      simp [jset, if_neg hk, ih h]

theorem jget_jset_self (m : JMap) (k v : Str) : jget (jset m k v) k = some v := by
  induction m with
  | nil => simp [jset, jget]
  | cons p r ih =>
    obtain ⟨k', v'⟩ := p
    by_cases hk : k' = k
    · simp [jset, jget, hk]
    · simp [jset, jget, if_neg hk, ih]

theorem jget_jset_ne (m : JMap) {k k2 : Str} (v : Str) (h : k2 ≠ k) :
    jget (jset m k v) k2 = jget m k2 := by
  have h2 : k ≠ k2 := Ne.symm h
  induction m with
  | nil => simp [jset, jget, if_neg h2]
  | cons p r ih =>
    obtain ⟨k', v'⟩ := p
    by_cases hk : k' = k
    · subst hk
      simp [jset, jget, if_neg h2]
    · simp [jset, jget, if_neg hk, ih]

theorem jget_jdel_self (m : JMap) (k : Str) : jget (jdel m k) k = none := by
  induction m with
  | nil => rfl
  | cons p r ih =>
    obtain ⟨k', v'⟩ := p
    by_cases hk : k' = k
    · simpa [jdel, hk] using ih
    · simpa [jdel, List.filter, hk, jget, if_neg hk] using ih

theorem jkeys_append_single_nonidx (m : JMap) {k : Str} (v : Str)
    (h : isArrayIndexKey k = false) :
    jkeys (m ++ [(k, v)]) = jkeys m ++ [k] := by
  simp only [jkeys, List.map_append, List.filter_append, List.map_cons, List.map_nil,
    List.filter_cons, List.filter_nil, h, Bool.false_eq_true, if_false,
    Bool.not_false, if_true]
  simp [List.append_assoc]

theorem validateKey_isValid_ne_nil {k : Str} (h : (validateKey k).isValid = true) :
    k ≠ [] := by
  intro hnil
  subst hnil
  simp [validateKey, jsTrim] at h

theorem isKeyChar_false_of_space {c : Char} (h : isJsSpace c = true) :
    isKeyChar c = false := by
  simp only [isJsSpace, Bool.or_eq_true, decide_eq_true_eq] at h
  rcases h with ((((((h | h) | h) | h) | h) | h) | h) | h <;> subst h <;> decide

theorem validateKey_guards (k : Str) :
    (validateKey k).isValid = true ↔
      ¬(k = [] ∨ jsTrim k = []) ∧ hasSpace k = false ∧ keyRegexTest k = true := by
  unfold validateKey
  by_cases h1 : k = [] ∨ jsTrim k = []
  · simp [h1]
  · rw [if_neg h1]
    by_cases h2 : hasSpace k = true
    · simp [h1, h2]
    · rw [if_neg h2]
      by_cases h3 : keyRegexTest k = false
      · simp [h1, h2, h3]
      · simp only [if_neg h3]
        simp only [Bool.not_eq_true] at h2
        simp only [Bool.not_eq_false] at h3
        simp [h1, h2, h3]

/-! ## Concrete states used by counterexamples and failing-input evaluations -/

/-- A two-snippet repository state, used to exhibit the order change of a
same-key update. -/
def updateCexState : PluginSettings :=
  { snippets := [(str ("a"), str ("A")), (str ("b"), str ("B"))]
    icons := [(str ("a"), defaultIcon), (str ("b"), defaultIcon)]
    groups := [(str ("a"), []), (str ("b"), [])] }

/-- A one-snippet repository state whose snippet has the default empty group,
used to exhibit the orphaned group entry left by delete. -/
def deleteCexState : PluginSettings :=
  { snippets := [(str ("a"), str ("x"))]
    icons := [(str ("a"), defaultIcon)]
    groups := [(str ("a"), [])] }

/-! ## Claims -/

/-- C1: the spec and the code's own doc comment state the grouped-tail rule:
`processTemplate("> {1}\n> {2}", "Hello\nworld\ntest")` should equal
`"> Hello\n> world test"`.  The code disagrees: in the `else if` chain of
main.js lines 109-115 the branch `paramNum > 1 && paramNum <= lines.length`
always fires before the grouped-tail branch `paramNum === 2 && lines.length >
1` (whose guard implies the former), so `{2}` gets the second line alone and
the result is `"> Hello\n> world"`. -/
theorem grouped_tail_failing_eval :
    processTemplate (str ("> {1}\n> {2}")) (str ("Hello\nworld\ntest")) =
      str ("> Hello\n> world") ∧
    str ("> Hello\n> world") ≠ str ("> Hello\n> world test") := by decide

/-- C2: the spec requires substituting each distinct token in a single
non-overlapping pass over the original template, so that a replacement
containing the literal `{m}` of another placeholder is not re-substituted.
The code instead replaces into the accumulated output
(`processedText = processedText.replace(...)`, main.js line 118): on template
`"{1} {2}"` with selection `"{2}\nfoo"`, the `{2}` introduced by the first
pass is rewritten by the second pass, giving `"foo foo"` instead of the
single-pass result `"{2} foo"`. -/
theorem sequential_substitution_failing_eval :
    processTemplate (str ("{1} {2}")) (str ("{2}\nfoo")) = str ("foo foo") ∧
    str ("foo foo") ≠ str ("{2} foo") := by decide

/-- C4: after deleting the only snippet, whose group is the default empty
string, the snippet entry is gone but the group entry survives, because the
guard `if (settings.groups && settings.groups[key])` (main.js line 1004) is
false for the falsy stored value `''` and the `delete` is skipped.  This
contradicts the spec's no-orphaned-attributes invariant and the code's own
comment `// Also delete the group setting`. -/
theorem delete_leaves_empty_group_entry :
    jget (handleDeleteSnippet deleteCexState (str ("a"))).snippets (str ("a")) = none ∧
    jget (handleDeleteSnippet deleteCexState (str ("a"))).groups (str ("a")) =
      some [] := by decide

/-- C3 counterexample: saving the record under key `"a"` with `newKey ==
originalKey` in the two-record state `[a, b]` does not preserve the record's
position: `handleSave` deletes the key and re-inserts it (main.js lines
598-605), so the key order becomes `[b, a]`. -/
theorem update_same_key_order_counterexample :
    jkeys ((handleSave updateCexState (str ("a")) (str ("a")) (str ("A2"))
        defaultIcon []).2).snippets = [str ("b"), str ("a")] ∧
    jkeys updateCexState.snippets = [str ("a"), str ("b")] ∧
    ([str ("b"), str ("a")] : List Str) ≠ [str ("a"), str ("b")] := by decide

/-- C9 counterexample: the replacement does not appear verbatim in the output
when it contains dollar signs.  For template `"{1}"` and selection `"$&"` the
computed replacement is `"$&"`, but `String.prototype.replace` expands `$&`
to the matched token (main.js line 118), so the result is `"{1}"`, not
`"$&"`. -/
theorem replacement_dollar_counterexample :
    processTemplate (str ("{1}")) (str ("$&")) = str ("{1}") ∧
    str ("{1}") ≠ str ("$&") := by decide

/-- C3 (amended): a save with `newKey == originalKey` changes only that
record's text, icon and group values, and every other record keeps its value
and the relative order of the other records is unchanged (each map becomes
the old map without the key, followed by the re-inserted record); the
record's position is not preserved: when the key is not a canonical
array-index key, the delete-and-re-insert places it after all the remaining
records in the repository order. -/
theorem update_same_key_moves_to_end (s : PluginSettings) (k v i g : Str)
    (hk : k ≠ []) (hv : v ≠ []) (_hmem : (jget s.snippets k).isSome = true)
    (hidx : isArrayIndexKey k = false) :
    handleSave s k k v i g =
      (.saved,
        { snippets := jdel s.snippets k ++ [(k, v)]
          icons := jdel s.icons k ++ [(k, i)]
          groups := jdel s.groups k ++ [(k, g)] }) ∧
    jkeys (jdel s.snippets k ++ [(k, v)]) = jkeys (jdel s.snippets k) ++ [k] := by
  have h1 : ¬(k = [] ∨ v = []) := by
    rintro (h | h)
    · exact hk h
    · exact hv h
  refine ⟨?_, jkeys_append_single_nonidx _ _ hidx⟩
  simp only [handleSave, if_neg h1, ne_eq, not_true_eq_false, false_and, if_false,
    jset_append_of_none _ (jget_jdel_self _ _)]

/-- Closed instance of `update_same_key_moves_to_end` on a concrete state. -/
theorem update_same_key_moves_to_end_witness :
    handleSave updateCexState (str ("a")) (str ("a")) (str ("A2")) defaultIcon [] =
      (.saved,
        { snippets := jdel updateCexState.snippets (str ("a")) ++ [(str ("a"), str ("A2"))]
          icons := jdel updateCexState.icons (str ("a")) ++ [(str ("a"), defaultIcon)]
          groups := jdel updateCexState.groups (str ("a")) ++ [(str ("a"), [])] }) ∧
    jkeys (jdel updateCexState.snippets (str ("a")) ++ [(str ("a"), str ("A2"))]) =
      jkeys (jdel updateCexState.snippets (str ("a"))) ++ [str ("a")] :=
  update_same_key_moves_to_end updateCexState (str ("a")) (str ("A2")) defaultIcon []
    (by decide) (by decide) (by decide) (by decide)

/-- The shipped default settings, `CONSTANTS.DEFAULT_SETTINGS` (main.js lines
24-37). -/
def defaultSettingsState : PluginSettings :=
  { snippets := [(str ("hello"), str ("_Hello World_")),
      (str ("greet"), str ("Hello {1} (from Insertive)"))]
    icons := [(str ("hello"), str ("stamp")), (str ("greet"), str ("hand"))]
    groups := [(str ("hello"), []), (str ("greet"), [])] }

/-- C5 counterexample: the validator accepts the digit-only key `"1"`, and
adding it to the default state does not append it at the end of the
repository order: ECMAScript enumerates canonical array-index keys first, so
`Object.keys` yields `["1", "hello", "greet"]` rather than
`["hello", "greet", "1"]`. -/
theorem add_integer_key_not_last :
    (validateKey (str ("1"))).isValid = true ∧
    (handleAddSnippet defaultSettingsState (str ("1")) (str ("x"))).1 = .added ∧
    jkeys (handleAddSnippet defaultSettingsState (str ("1")) (str ("x"))).2.snippets =
      [str ("1"), str ("hello"), str ("greet")] ∧
    ([str ("1"), str ("hello"), str ("greet")] : List Str) ≠
      jkeys defaultSettingsState.snippets ++ [str ("1")] := by decide

/-- C5 (amended): a successful add stores the given text under the key with
the icon set to the fixed default icon and the group set to the empty
string; when the key is not a canonical array-index key, the new record is
appended at the end of the repository order (every existing record keeps its
position and the new key becomes the last key) — an array-index key such as
`"1"` is instead enumerated in the numeric block ahead of all other keys. -/
theorem add_appends_with_defaults (s : PluginSettings) (k v : Str)
    (hv : v ≠ []) (hval : (validateKey k).isValid = true)
    (hfresh : jget s.snippets k = none) (hidx : isArrayIndexKey k = false) :
    (handleAddSnippet s k v).1 = .added ∧
    (handleAddSnippet s k v).2.snippets = s.snippets ++ [(k, v)] ∧
    jkeys (handleAddSnippet s k v).2.snippets = jkeys s.snippets ++ [k] ∧
    jget (handleAddSnippet s k v).2.snippets k = some v ∧
    jget (handleAddSnippet s k v).2.icons k = some defaultIcon ∧
    jget (handleAddSnippet s k v).2.groups k = some [] ∧
    (∀ k2, k2 ≠ k → jget (handleAddSnippet s k v).2.icons k2 = jget s.icons k2) ∧
    (∀ k2, k2 ≠ k → jget (handleAddSnippet s k v).2.groups k2 = jget s.groups k2) := by
  have hk : k ≠ [] := validateKey_isValid_ne_nil hval
  have h1 : ¬(k = [] ∨ v = []) := by
    rintro (h | h)
    · exact hk h
    · exact hv h
  have hres : handleAddSnippet s k v = (.added, addNewSnippet s k v) := by
    simp [handleAddSnippet, if_neg h1, hval, hfresh, truthy]
  rw [hres]
  refine ⟨rfl, ?_, ?_, ?_, ?_, ?_, ?_, ?_⟩
  · exact jset_append_of_none v hfresh
  · rw [show (addNewSnippet s k v).snippets = jset s.snippets k v from rfl,
      jset_append_of_none v hfresh, jkeys_append_single_nonidx _ _ hidx]
  · exact jget_jset_self _ _ _
  · exact jget_jset_self _ _ _
  · exact jget_jset_self _ _ _
  · exact fun k2 h => jget_jset_ne _ _ h
  · exact fun k2 h => jget_jset_ne _ _ h

/-- Closed instance of `add_appends_with_defaults` on the empty state. -/
theorem add_appends_with_defaults_witness :
    (handleAddSnippet ⟨[], [], []⟩ (str ("new")) (str ("txt"))).1 = .added ∧
    (handleAddSnippet ⟨[], [], []⟩ (str ("new")) (str ("txt"))).2.snippets =
      [] ++ [(str ("new"), str ("txt"))] ∧
    jkeys (handleAddSnippet ⟨[], [], []⟩ (str ("new")) (str ("txt"))).2.snippets =
      jkeys [] ++ [str ("new")] ∧
    jget (handleAddSnippet ⟨[], [], []⟩ (str ("new")) (str ("txt"))).2.snippets
      (str ("new")) = some (str ("txt")) ∧
    jget (handleAddSnippet ⟨[], [], []⟩ (str ("new")) (str ("txt"))).2.icons
      (str ("new")) = some defaultIcon ∧
    jget (handleAddSnippet ⟨[], [], []⟩ (str ("new")) (str ("txt"))).2.groups
      (str ("new")) = some [] :=
  have h := add_appends_with_defaults ⟨[], [], []⟩ (str ("new")) (str ("txt"))
    (by decide) (by decide) (by decide) (by decide)
  ⟨h.1, h.2.1, h.2.2.1, h.2.2.2.1, h.2.2.2.2.1, h.2.2.2.2.2.1⟩

/-- C6: error atomicity of add.  Adding under a key that is already present
(with a nonempty stored text, as every reachable record has, the key itself
satisfying the repository's key invariant) stops at the duplicate-key
confirmation with the state unchanged; adding under a nonempty key rejected
by the validator fails with the validator's message and the state
unchanged. -/
theorem add_error_atomicity (s : PluginSettings) (k v : Str) (hv : v ≠ []) :
    ((∃ w, jget s.snippets k = some w ∧ w ≠ []) →
      (validateKey k).isValid = true →
      handleAddSnippet s k v = (.duplicatePending, s)) ∧
    (k ≠ [] → (validateKey k).isValid = false →
      handleAddSnippet s k v = (.invalidKey (validateKey k).message, s)) := by
  constructor
  · rintro ⟨w, hw, hwne⟩ hval
    have hk : k ≠ [] := validateKey_isValid_ne_nil hval
    have h1 : ¬(k = [] ∨ v = []) := by
      rintro (h | h)
      · exact hk h
      · exact hv h
    simp [handleAddSnippet, if_neg h1, hval, hw, truthy, hwne]
  · intro hk hval
    have h1 : ¬(k = [] ∨ v = []) := by
      rintro (h | h)
      · exact hk h
      · exact hv h
    simp [handleAddSnippet, if_neg h1, hval]

/-- Closed instances of `add_error_atomicity`: a duplicate key and a key with
a space, both leaving the one-record state untouched. -/
theorem add_error_atomicity_witness :
    handleAddSnippet deleteCexState (str ("a")) (str ("y")) =
      (.duplicatePending, deleteCexState) ∧
    handleAddSnippet deleteCexState (str ("b c")) (str ("y")) =
      (.invalidKey (validateKey (str ("b c"))).message, deleteCexState) :=
  ⟨(add_error_atomicity deleteCexState (str ("a")) (str ("y")) (by decide)).1
      ⟨str ("x"), by decide, by decide⟩ (by decide),
    (add_error_atomicity deleteCexState (str ("b c")) (str ("y")) (by decide)).2
      (by decide) (by decide)⟩

/-- C7: `validateKey` accepts a key iff it is nonempty after trimming,
contains no whitespace and matches `^[A-Za-z0-9_-]+$`; the rules are checked
in order — an empty (after trimming) key reports the empty-key message, then
a key containing a space reports the space message, then a key failing the
regex reports the invalid-characters message. -/
theorem validateKey_spec (k : Str) :
    ((validateKey k).isValid = true ↔
      (jsTrim k ≠ [] ∧ (∀ c ∈ k, isJsSpace c = false) ∧ keyRegexTest k = true)) ∧
    (jsTrim k = [] → validateKey k = ⟨false, msgEmptyKey⟩) ∧
    (jsTrim k ≠ [] → hasSpace k = true → validateKey k = ⟨false, msgSpaceKey⟩) ∧
    (jsTrim k ≠ [] → hasSpace k = false → keyRegexTest k = false →
      validateKey k = ⟨false, msgInvalidChars⟩) := by
  have hnil : jsTrim ([] : Str) = [] := rfl
  refine ⟨?_, ?_, ?_, ?_⟩
  · rw [validateKey_guards]
    constructor
    · rintro ⟨h1, h2, h3⟩
      refine ⟨fun h => h1 (Or.inr h), ?_, h3⟩
      intro c hc
      have hall : ∀ c ∈ k, isKeyChar c = true := by
        have h4 := h3
        simp only [keyRegexTest, Bool.and_eq_true, decide_eq_true_eq,
          List.all_eq_true] at h4
        exact h4.2
      cases hsp : isJsSpace c with
      | false => rfl
      | true =>
        exact absurd (hall c hc) (by simp [isKeyChar_false_of_space hsp])
    · rintro ⟨h1, h2, h3⟩
      refine ⟨?_, ?_, h3⟩
      · rintro (h | h)
        · exact h1 (h ▸ hnil)
        · exact h1 h
      · cases hs : hasSpace k with
        | false => rfl
        | true =>
          simp only [hasSpace, List.any_eq_true, decide_eq_true_eq] at hs
          obtain ⟨c, hc, rfl⟩ := hs
          have := h2 ' ' hc
          simp [isJsSpace] at this
  · intro h
    simp [validateKey, h]
  · intro h1 h2
    have hg : ¬(k = [] ∨ jsTrim k = []) := by
      rintro (h | h)
      · exact h1 (h ▸ hnil)
      · exact h1 h
    simp [validateKey, if_neg hg, h2]
  · intro h1 h2 h3
    have hg : ¬(k = [] ∨ jsTrim k = []) := by
      rintro (h | h)
      · exact h1 (h ▸ hnil)
      · exact h1 h
    simp [validateKey, if_neg hg, h2, h3]

/-- Closed instances of `validateKey_spec`: a valid key, and the
contains-space rule firing before the invalid-characters rule. -/
theorem validateKey_spec_witness :
    (validateKey (str ("my-key_1"))).isValid = true ∧
    validateKey (str ("a b!")) = ⟨false, msgSpaceKey⟩ :=
  ⟨((validateKey_spec (str ("my-key_1"))).1).mpr
      (by refine ⟨by decide, ?_, by decide⟩; decide),
    ((validateKey_spec (str ("a b!"))).2.2.1) (by decide) (by decide)⟩

/-- C8: when the selection is empty or the template contains no `{n}` token,
`processTemplate` returns the template unchanged (the early return at main.js
lines 94-96). -/
theorem processTemplate_id_no_token_or_empty (t sel : Str)
    (h : sel = [] ∨ hasPlaceholders t = false) :
    processTemplate t sel = t := by
  unfold processTemplate
  rw [if_pos]
  rcases h with h | h
  · exact Or.inl h
  · exact Or.inr h

/-- Closed instances of `processTemplate_id_no_token_or_empty`: a template
with braces but no digit token and a nonempty selection, and a template with
a token but an empty selection. -/
theorem processTemplate_id_witness :
    processTemplate (str ("no {token} here")) (str ("some\nselection")) =
      str ("no {token} here") ∧
    processTemplate (str ("hello {1}")) [] = str ("hello {1}") :=
  ⟨processTemplate_id_no_token_or_empty (str ("no {token} here"))
      (str ("some\nselection")) (Or.inr (by decide)),
    processTemplate_id_no_token_or_empty (str ("hello {1}")) [] (Or.inl rfl)⟩

/-! ## Verbatim-replacement reading of the spec (for C9)

The spec says each occurrence of `{k}` is replaced by the computed
replacement itself; the code passes the replacement to
`String.prototype.replace`, which expands dollar patterns in it.  The
definitions below replicate the processing pipeline with a verbatim
replacement step, to be compared with `processTemplate`. -/

/-- Modelled from the spec: "Replace every literal occurrence of `{k}` in
`template` with `replacement`, globally" — left-to-right non-overlapping
global replacement with the replacement inserted verbatim. -/
def replVerbatimAux (tok rep : Str) : Nat → Str → Str
  | 0, s => s
  | _ + 1, [] => []
  | f + 1, c :: rest =>
    if isPre tok (c :: rest) = true then
      rep ++ replVerbatimAux tok rep f ((c :: rest).drop tok.length)
    else c :: replVerbatimAux tok rep f rest

/-- Modelled from the spec: verbatim global replacement of a literal token. -/
def replaceVerbatim (s tok rep : Str) : Str := replVerbatimAux tok rep s.length s

/-- One substitution pass with the verbatim replacement step. -/
def applyPlaceholderVerbatim (lines : List Str) (acc : Str) (ph : Str) : Str :=
  let paramNum := digitsToNat (ph.filter (fun c => decide (c ≠ '\x7b' ∧ c ≠ '\x7d')))
  replaceVerbatim acc (tokenOf paramNum) (computeReplacement paramNum lines)

/-- Modelled from the spec: `processTemplate` with every replacement inserted
verbatim; all other steps are as in the code. -/
def processTemplateVerbatim (snippetText selectedText : Str) : Str :=
  if selectedText = [] ∨ hasPlaceholders snippetText = false then snippetText
  else (extractPlaceholders snippetText).foldl
    (applyPlaceholderVerbatim (linesOf selectedText)) snippetText

theorem expandDollar_no_dollar (b m a : Str) :
    ∀ rep : Str, (∀ c ∈ rep, c ≠ '$') → expandDollar b m a rep = rep := by
  intro rep
  induction rep with
  | nil => intro _; rfl
  | cons c r ih =>
    intro h
    have hc : ¬(c = '$') := h c (List.mem_cons_self _ _)
    unfold expandDollar
    rw [if_neg hc, ih (fun c2 hc2 => h c2 (List.mem_cons_of_mem _ hc2))]

theorem replAux_eq_verbatim {tok rep : Str} (h : ∀ c ∈ rep, c ≠ '$') :
    ∀ (f : Nat) (rb s : Str), replAux tok rep f rb s = replVerbatimAux tok rep f s := by
  intro f
  induction f with
  | zero => intro rb s; rfl
  | succ f ih =>
    intro rb s
    cases s with
    | nil => rfl
    | cons c rest =>
      by_cases hp : isPre tok (c :: rest) = true
      · simp only [replAux, replVerbatimAux, if_pos hp]
        rw [expandDollar_no_dollar _ _ _ rep h, ih]
      · simp only [replAux, replVerbatimAux, if_neg hp]
        rw [ih]

theorem jsReplace_eq_verbatim {s tok rep : Str} (h : ∀ c ∈ rep, c ≠ '$') :
    jsReplace s tok rep = replaceVerbatim s tok rep :=
  replAux_eq_verbatim h s.length [] s

theorem splitNlAux_mem :
    ∀ (s acc l : Str), l ∈ splitNlAux acc s → ∀ c ∈ l, c ∈ acc ∨ c ∈ s := by
  intro s
  induction s with
  | nil =>
    intro acc l hl c hc
    simp only [splitNlAux, List.mem_singleton] at hl
    subst hl
    exact Or.inl (List.mem_reverse.mp hc)
  | cons d r ih =>
    intro acc l hl c hc
    by_cases hd : d = '\n'
    · rw [splitNlAux, if_pos hd] at hl
      rcases List.mem_cons.mp hl with hl | hl
      · subst hl
        exact Or.inl (List.mem_reverse.mp hc)
      · rcases ih [] l hl c hc with h0 | h0
        · simp at h0
        · exact Or.inr (List.mem_cons_of_mem _ h0)
    · rw [splitNlAux, if_neg hd] at hl
      rcases ih (d :: acc) l hl c hc with h0 | h0
      · rcases List.mem_cons.mp h0 with h1 | h1
        · subst h1
          exact Or.inr (List.mem_cons_self _ _)
        · exact Or.inl h1
      · exact Or.inr (List.mem_cons_of_mem _ h0)

theorem mem_of_mem_dropWhile {p : Char → Bool} {l : Str} {c : Char}
    (h : c ∈ l.dropWhile p) : c ∈ l := by
  induction l with
  | nil => simp at h
  | cons a r ih =>
    by_cases hp : p a = true
    · rw [List.dropWhile_cons_of_pos hp] at h
      exact List.mem_cons_of_mem _ (ih h)
    · rw [List.dropWhile_cons_of_neg (by simp [hp])] at h
      exact h

theorem jsTrim_subset {l : Str} {c : Char} (h : c ∈ jsTrim l) : c ∈ l := by
  unfold jsTrim at h
  rw [List.mem_reverse] at h
  have h2 := mem_of_mem_dropWhile h
  rw [List.mem_reverse] at h2
  exact mem_of_mem_dropWhile h2

theorem linesOf_no_dollar {sel : Str} (h : ∀ c ∈ sel, c ≠ '$') :
    ∀ l ∈ linesOf sel, ∀ c ∈ l, c ≠ '$' := by
  intro l hl c hc
  unfold linesOf at hl
  have hl2 := List.mem_of_mem_filter hl
  rw [List.mem_map] at hl2
  obtain ⟨l0, hl0, rfl⟩ := hl2
  have hc0 : c ∈ l0 := jsTrim_subset hc
  rcases splitNlAux_mem sel [] l0 hl0 c hc0 with h0 | h0
  · simp at h0
  · exact h c h0

theorem joinSpace_mem {ls : List Str} {c : Char} (h : c ∈ joinSpace ls) :
    c = ' ' ∨ ∃ l ∈ ls, c ∈ l := by
  induction ls with
  | nil => simp [joinSpace] at h
  | cons l r ih =>
    simp only [joinSpace] at h
    rcases List.mem_append.mp h with h | h
    · exact Or.inr ⟨l, List.mem_cons_self _ _, h⟩
    · by_cases hr : r = []
      · rw [if_pos hr] at h
        simp at h
      · rw [if_neg hr] at h
        rcases List.mem_cons.mp h with h | h
        · exact Or.inl h
        · rcases ih h with h | ⟨l2, hl2, hc2⟩
          · exact Or.inl h
          · exact Or.inr ⟨l2, List.mem_cons_of_mem _ hl2, hc2⟩

theorem getD_mem_or_default (ls : List Str) :
    ∀ i, ls.getD i [] ∈ ls ∨ ls.getD i [] = [] := by
  induction ls with
  | nil => intro i; right; simp
  | cons l r ih =>
    intro i
    cases i with
    | zero => left; simp
    | succ i =>
      rw [List.getD_cons_succ]
      rcases ih i with h | h
      · exact Or.inl (List.mem_cons_of_mem _ h)
      · exact Or.inr h

theorem computeReplacement_no_dollar {lines : List Str}
    (h : ∀ l ∈ lines, ∀ c ∈ l, c ≠ '$') (n : Nat) :
    ∀ c ∈ computeReplacement n lines, c ≠ '$' := by
  intro c hc
  unfold computeReplacement at hc
  by_cases h1 : n = 1
  · rw [if_pos h1] at hc
    cases lines with
    | nil => simp [List.headD] at hc
    | cons l r =>
      exact h l (List.mem_cons_self _ _) c (by simpa [List.headD] using hc)
  · rw [if_neg h1] at hc
    by_cases h2 : n > 1 ∧ n ≤ lines.length
    · rw [if_pos h2] at hc
      rcases getD_mem_or_default lines (n - 1) with hm | hm
      · exact h _ hm c hc
      · rw [hm] at hc
        simp at hc
    · rw [if_neg h2] at hc
      by_cases h3 : n = 2 ∧ lines.length > 1
      · rw [if_pos h3] at hc
        rcases joinSpace_mem hc with h4 | ⟨l, hl, hcl⟩
        · subst h4; decide
        · exact h l (List.drop_subset _ _ hl) c hcl
      · rw [if_neg h3] at hc
        simp at hc

theorem foldl_apply_eq_verbatim {lines : List Str}
    (h : ∀ l ∈ lines, ∀ c ∈ l, c ≠ '$') :
    ∀ (phs : List Str) (acc : Str),
      phs.foldl (applyPlaceholder lines) acc =
        phs.foldl (applyPlaceholderVerbatim lines) acc := by
  intro phs
  induction phs with
  | nil => intro acc; rfl
  | cons ph r ih =>
    intro acc
    simp only [List.foldl_cons]
    rw [show applyPlaceholder lines acc ph = applyPlaceholderVerbatim lines acc ph from
      jsReplace_eq_verbatim (computeReplacement_no_dollar h _), ih]

/-- C9 (amended): `processTemplate` replaces every occurrence of each
distinct token globally, but the replacement goes through JavaScript
replacement-pattern expansion; whenever the selection contains no dollar
sign (so every computed replacement is dollar-free), the processing agrees
with the spec's verbatim-substitution reading. -/
theorem processTemplate_verbatim_when_no_dollar (t sel : Str)
    (h : ∀ c ∈ sel, c ≠ '$') :
    processTemplate t sel = processTemplateVerbatim t sel := by
  unfold processTemplate processTemplateVerbatim
  by_cases h0 : sel = [] ∨ hasPlaceholders t = false
  · rw [if_pos h0, if_pos h0]
  · rw [if_neg h0, if_neg h0, foldl_apply_eq_verbatim (linesOf_no_dollar h)]

/-- Closed instance of `processTemplate_verbatim_when_no_dollar` on a
dollar-free selection. -/
theorem processTemplate_verbatim_witness :
    processTemplate (str ("> {1}\n> {2}")) (str ("Hello\nworld\ntest")) =
      processTemplateVerbatim (str ("> {1}\n> {2}")) (str ("Hello\nworld\ntest")) :=
  processTemplate_verbatim_when_no_dollar _ _ (by decide)

/-! ## The `{0}` placeholder (for C10) -/

/-- The literal token `{0}`. -/
def tok0 : Str := ['\x7b', '0', '\x7d']

theorem takeWhile_digits_zero (post : Str) :
    (('0' : Char) :: '\x7d' :: post).takeWhile Char.isDigit = ['0'] := by
  rw [List.takeWhile_cons_of_pos (by decide), List.takeWhile_cons_of_neg (by decide)]

theorem scanAux_succ_match (f : Nat) {c : Char} {rest : Str}
    (h : c = '\x7b' ∧ rest.takeWhile Char.isDigit ≠ [] ∧
      (rest.drop (rest.takeWhile Char.isDigit).length).head? = some '\x7d') :
    scanAux (f + 1) (c :: rest) =
      ('\x7b' :: rest.takeWhile Char.isDigit ++ ['\x7d']) ::
        scanAux f (rest.drop ((rest.takeWhile Char.isDigit).length + 1)) := by
  conv_lhs => unfold scanAux
  rw [if_pos h]

theorem scanAux_succ_skip (f : Nat) {c : Char} {rest : Str}
    (h : ¬(c = '\x7b' ∧ rest.takeWhile Char.isDigit ≠ [] ∧
      (rest.drop (rest.takeWhile Char.isDigit).length).head? = some '\x7d')) :
    scanAux (f + 1) (c :: rest) = scanAux f rest := by
  conv_lhs => unfold scanAux
  rw [if_neg h]

theorem takeWhile_append_length {p : Char → Bool} :
    ∀ (l1 : Str) {c : Char} (l2 : Str), p c = false →
      ((l1 ++ c :: l2).takeWhile p).length ≤ l1.length := by
  intro l1
  induction l1 with
  | nil =>
    intro c l2 hc
    have hc2 : ¬p c = true := by simp [hc]
    rw [List.nil_append, List.takeWhile_cons_of_neg hc2]
  | cons a r ih =>
    intro c l2 hc
    by_cases hp : p a = true
    · rw [List.cons_append, List.takeWhile_cons_of_pos hp]
      simpa using ih l2 hc
    · have hp2 : ¬p a = true := by simp [hp]
      rw [List.cons_append, List.takeWhile_cons_of_neg hp2]
      simp

theorem drop_append_le {l2 : List Char} :
    ∀ (l1 : List Char) (n : Nat), n ≤ l1.length →
      (l1 ++ l2).drop n = l1.drop n ++ l2 := by
  intro l1
  induction l1 with
  | nil =>
    intro n hn
    have : n = 0 := Nat.le_zero.mp hn
    subst this
    rfl
  | cons a r ih =>
    intro n hn
    cases n with
    | zero => rfl
    | succ n =>
      rw [List.cons_append, List.drop_succ_cons, List.drop_succ_cons,
        ih n (Nat.le_of_succ_le_succ hn)]

/-- Any substring occurrence of the literal `{0}` is found by the regex
scanner: a match of `\{\d+\}` contains `\x7b` only as its first character, so
no match can cover the occurrence's opening brace without starting there, and
there the maximal digit run is exactly `0`. -/
theorem scanAux_mem_tok0 :
    ∀ (f : Nat) (pre post t : Str), t = pre ++ tok0 ++ post → t.length ≤ f →
      tok0 ∈ scanAux f t := by
  intro f
  induction f with
  | zero =>
    intro pre post t ht hlen
    subst ht
    simp only [List.length_append, tok0, List.length_cons, List.length_nil] at hlen
    omega
  | succ f ih =>
    intro pre post t ht hlen
    subst ht
    cases pre with
    | nil =>
      show tok0 ∈ scanAux (f + 1) ('\x7b' :: '0' :: '\x7d' :: post)
      rw [scanAux_succ_match f ⟨rfl, by rw [takeWhile_digits_zero]; decide,
        by rw [takeWhile_digits_zero]; rfl⟩]
      rw [takeWhile_digits_zero]
      exact List.mem_cons_self _ _
    | cons c pre' =>
      rw [show (c :: pre') ++ tok0 ++ post =
        c :: (pre' ++ ('\x7b' :: '0' :: '\x7d' :: post)) from by
          simp [tok0, List.append_assoc]]
      have hlen2 : (pre' ++ ('\x7b' :: '0' :: '\x7d' :: post)).length ≤ f := by
        simp only [List.length_append, tok0, List.length_cons, List.length_nil] at hlen ⊢
        omega
      by_cases hcond : c = '\x7b' ∧
          (pre' ++ ('\x7b' :: '0' :: '\x7d' :: post)).takeWhile Char.isDigit ≠ [] ∧
          ((pre' ++ ('\x7b' :: '0' :: '\x7d' :: post)).drop
            ((pre' ++ ('\x7b' :: '0' :: '\x7d' :: post)).takeWhile Char.isDigit).length).head? =
            some '\x7d'
      · obtain ⟨hc, hds, hbrace⟩ := hcond
        have hle : ((pre' ++ ('\x7b' :: '0' :: '\x7d' :: post)).takeWhile
            Char.isDigit).length ≤ pre'.length :=
          takeWhile_append_length pre' _ (by decide)
        have hlt : ((pre' ++ ('\x7b' :: '0' :: '\x7d' :: post)).takeWhile
            Char.isDigit).length < pre'.length := by
          rcases Nat.lt_or_ge ((pre' ++ ('\x7b' :: '0' :: '\x7d' :: post)).takeWhile
            Char.isDigit).length pre'.length with h | h
          · exact h
          · exfalso
            have heq : pre'.length = ((pre' ++ ('\x7b' :: '0' :: '\x7d' :: post)).takeWhile
                Char.isDigit).length := Nat.le_antisymm h hle
            rw [List.drop_left' heq] at hbrace
            simp at hbrace
        rw [scanAux_succ_match f ⟨hc, hds, hbrace⟩]
        refine List.mem_cons_of_mem _ ?_
        rw [drop_append_le pre' _ hlt]
        refine ih (pre'.drop (((pre' ++ ('\x7b' :: '0' :: '\x7d' :: post)).takeWhile
          Char.isDigit).length + 1)) post _ ?_ ?_
        · rw [List.append_assoc]
          rfl
        · simp only [List.length_append, List.length_drop, List.length_cons]
          simp only [List.length_append, List.length_cons] at hlen2
          omega
      · rw [scanAux_succ_skip f hcond]
        refine ih pre' post _ ?_ hlen2
        rw [List.append_assoc]
        rfl

theorem dedupAux_mem {x : Str} :
    ∀ (l seen : List Str), x ∈ l → x ∈ seen ∨ x ∈ dedupAux seen l := by
  intro l
  induction l with
  | nil =>
    intro seen hx
    simp at hx
  | cons y r ih =>
    intro seen hx
    by_cases hy : y ∈ seen
    · rw [show dedupAux seen (y :: r) = dedupAux seen r from by
        conv_lhs => unfold dedupAux
        rw [if_pos hy]]
      rcases List.mem_cons.mp hx with h | h
      · subst h
        exact Or.inl hy
      · exact ih seen h
    · rw [show dedupAux seen (y :: r) = y :: dedupAux (y :: seen) r from by
        conv_lhs => unfold dedupAux
        rw [if_neg hy]]
      rcases List.mem_cons.mp hx with h | h
      · subst h
        exact Or.inr (List.mem_cons_self _ _)
      · rcases ih (y :: seen) h with h2 | h2
        · rcases List.mem_cons.mp h2 with h3 | h3
          · subst h3
            exact Or.inr (List.mem_cons_self _ _)
          · exact Or.inl h3
        · exact Or.inr (List.mem_cons_of_mem _ h2)

/-- C10: `{0}` is treated as a placeholder even though the spec only defines
positive indices: with a nonempty selection and a template containing the
literal `{0}`, `hasPlaceholders` is true, `extractPlaceholders` contains
`{0}`, the computed replacement for index 0 is the empty string (no branch of
the replacement chain covers 0), so the `{0}` substitution pass erases every
occurrence of the token, and `processTemplate` actually runs the substitution
passes. -/
theorem placeholder_zero_treated (t sel pre post : Str)
    (hsel : sel ≠ []) (ht : t = pre ++ str ("{0}") ++ post) :
    hasPlaceholders t = true ∧
    str ("{0}") ∈ extractPlaceholders t ∧
    computeReplacement 0 (linesOf sel) = [] ∧
    (∀ acc, applyPlaceholder (linesOf sel) acc (str ("{0}")) =
      jsReplace acc (str ("{0}")) []) ∧
    processTemplate t sel =
      (extractPlaceholders t).foldl (applyPlaceholder (linesOf sel)) t := by
  have htok : str ("{0}") = tok0 := by decide
  have hraw : tok0 ∈ rawMatches t :=
    scanAux_mem_tok0 t.length pre post t (by rw [ht, htok]) (Nat.le_refl _)
  have hhas : hasPlaceholders t = true := by
    simp only [hasPlaceholders, decide_eq_true_eq]
    exact List.ne_nil_of_mem hraw
  have hrep : computeReplacement 0 (linesOf sel) = [] := by
    simp [computeReplacement]
  refine ⟨hhas, ?_, hrep, ?_, ?_⟩
  · rw [htok]
    rcases dedupAux_mem (rawMatches t) [] hraw with h | h
    · simp at h
    · exact h
  · intro acc
    have h0 : digitsToNat ((str ("{0}")).filter
        (fun c => decide (c ≠ '\x7b' ∧ c ≠ '\x7d'))) = 0 := by decide
    have htk : tokenOf 0 = str ("{0}") := by decide
    simp only [applyPlaceholder, h0, htk, hrep]
  · unfold processTemplate
    rw [if_neg]
    rintro (h | h)
    · exact hsel h
    · rw [hhas] at h
      simp at h

/-- Closed instance of `placeholder_zero_treated`: the template `"a {0}b"`
with selection `"x"`. -/
theorem placeholder_zero_treated_witness :
    hasPlaceholders (str ("a {0}b")) = true ∧
    str ("{0}") ∈ extractPlaceholders (str ("a {0}b")) ∧
    computeReplacement 0 (linesOf (str ("x"))) = [] ∧
    processTemplate (str ("a {0}b")) (str ("x")) =
      (extractPlaceholders (str ("a {0}b"))).foldl
        (applyPlaceholder (linesOf (str ("x")))) (str ("a {0}b")) :=
  have h := placeholder_zero_treated (str ("a {0}b")) (str ("x")) (str ("a "))
    (str ("b")) (by decide) (by decide)
  ⟨h.1, h.2.1, h.2.2.1, h.2.2.2.2⟩

end Insertive
